import Mathlib

/-!
Formal model of `src/dispatcher.ts` from the task-dispatcher repository.

The dispatcher keeps a map from run identifiers to run records, spawns one
child process per started suite, finalizes the record from the asynchronous
`execFile` completion callback, and serves `getStatus` / `cancel` queries.

Modelling choices, all taken from the source:
* JavaScript values that the dispatcher only inspects for truthiness
  (`run.error`, `run.result`, the decoded test result, thrown exceptions)
  are modelled by the inductive `JSVal` together with its `truthy` function,
  which mirrors JavaScript coercion to boolean.
* `Date` timestamps are natural numbers (milliseconds); each operation takes
  the instant of its `new Date()` captures as an explicit `now` argument.
* The `Map<string, Run>` is modelled as a function `String → Option Run`.
* The child-process handle is modelled by its `killed` flag, the only part
  of it the dispatcher reads.  `subprocess.kill()` delivers a signal (and
  sets the flag) only while the process may still be running; once the
  completion callback has fired the process has exited and its handle is
  closed, so a later `kill()` cannot set the flag (Node semantics).
* The asynchronous completion callback is a separate transition
  (`Dispatcher.onExit`); the platform invokes it exactly once per spawned
  process, after `start` has registered the record.  This is captured by
  the preconditions of `Step.complete`: the record exists and is not yet
  finished (the callback sets `finished` unconditionally, so a record is
  unfinished exactly when its callback has not fired yet).
-/

/-- JavaScript-like values, as far as the dispatcher can distinguish them:
it only ever stores them and branches on their truthiness. -/
inductive JSVal where
  | null : JSVal
  | undef : JSVal
  | jsbool : Bool → JSVal
  | num : Int → JSVal
  | str : String → JSVal
  | errorObj : String → JSVal
  | obj : Nat → JSVal
deriving DecidableEq, Repr

/-- JavaScript coercion to boolean: `null`, `undefined`, `false`, `0` and
the empty string are falsy, every other value (in particular every `Error`
object and every other object) is truthy. -/
def JSVal.truthy : JSVal → Bool
  | .null => false
  | .undef => false
  | .jsbool b => b
  | .num n => n != 0
  | .str s => s != ""
  | .errorObj _ => true
  | .obj _ => true

/-- Truthiness of an optional field of a JS object: an absent field reads as
`undefined`, which is falsy. -/
def optTruthy : Option JSVal → Bool
  | none => false
  | some v => v.truthy

/-- The structured result decoded from process output (`TestResult` in
`src/test.ts`, an external collaborator type); the dispatcher treats it as an
opaque JS value. -/
abbrev TestResult := JSVal

/-- The `NotFound` error class (`class NotFound extends Error`). -/
structure NotFound where
  message : String
deriving DecidableEq, Repr

/-- Command produced by the suite catalog (`makeRunCommand`). -/
structure RunCommand where
  command : String
  args : List String
deriving DecidableEq, Repr

/-- The suite catalog (`TestModule` in `src/test.ts`, an external
collaborator): reports known suites, produces commands, decodes raw output.
`decodeResult` may throw an arbitrary JS value, modelled by `Except`. -/
structure TestModule where
  has : String → Bool
  makeRunCommand : String → RunCommand
  decodeResult : String → Except JSVal TestResult

/-- One run record (`interface Run` in the source).  `processKilled` is the
`killed` flag of the `cp.ChildProcess` handle stored in the record. -/
structure Run where
  processKilled : Bool
  suite : String
  started : Nat
  finished : Option Nat
  result : Option TestResult
  error : Option JSVal
deriving DecidableEq, Repr

/-- The record returned by `getStatus`. -/
structure Status where
  suite : String
  status : String
  runtime : Int
  error : Option JSVal
  result : Option TestResult
deriving DecidableEq, Repr

/-- Update of the id-to-record map (`Map.prototype.set`). -/
def mapSet (m : String → Option Run) (k : String) (v : Run) : String → Option Run :=
  fun x => if x = k then some v else m x

/-- The dispatcher's own state: the run list and the id counter. -/
structure Dispatcher where
  runList : String → Option Run
  nextId : Nat

/-- A freshly constructed dispatcher: empty map, counter at 1. -/
def Dispatcher.init : Dispatcher :=
  { runList := fun _ => none, nextId := 1 }

/-- `generateId`: returns `(this.nextId++).toString()`, i.e. the decimal
rendering of the current counter, and increments the counter. -/
def Dispatcher.generateId (d : Dispatcher) : String × Dispatcher :=
  (Nat.repr d.nextId, { d with nextId := d.nextId + 1 })

/-- `start(suite)`: if the catalog knows the suite, generate an id, ask for
the command, spawn the process and register a fresh active record; otherwise
throw `NotFound(suite)` (leaving the state untouched).  The second component
is the dispatcher state after the call. -/
def Dispatcher.start (d : Dispatcher) (m : TestModule) (suite : String) (now : Nat) :
    Except NotFound String × Dispatcher :=
  if m.has suite then
    let p := d.generateId
    let id := p.1
    let d1 := p.2
    let _cmd := m.makeRunCommand suite
    let run : Run :=
      { processKilled := false, suite := suite, started := now,
        finished := none, result := none, error := none }
    (Except.ok id, { d1 with runList := mapSet d1.runList id run })
  else
    (Except.error ⟨suite⟩, d)

/-- The completion callback passed to `cp.execFile` in `start`: look the run
up (`this.runList.get(id)!`), set `finished`, then settle the outcome with
the source's precedence: execution error first, then bare diagnostic output
(`!stdout && stderr`), then decoding with its exception handler.  `err` is
the callback's `error` argument (`null` or an `Error` object). -/
def Dispatcher.onExit (d : Dispatcher) (m : TestModule) (id : String)
    (err : Option String) (stdout stderr : String) (now : Nat) : Dispatcher :=
  match d.runList id with
  | none => d
  | some run =>
    let run1 := { run with finished := some now }
    let run2 :=
      match err with
      | some e => { run1 with error := some (JSVal.errorObj e) }
      | none =>
        if stdout == "" && stderr != "" then
          { run1 with error := some (JSVal.errorObj stderr) }
        else
          match m.decodeResult stdout with
          | Except.ok v => { run1 with result := some v }
          | Except.error e => { run1 with error := some e }
    { d with runList := mapSet d.runList id run2 }

/-- Models `run.finished!.getTime()`: the non-null assertion on the finished
timestamp.  (Theorem statements about reachable states show the field is
present wherever `getStatus` reads it.) -/
def finishedTime (run : Run) : Nat :=
  run.finished.getD 0

/-- `getStatus(id)`: throw `NotFound(id)` for an unknown id, otherwise branch
on the truthiness of `run.error` and `run.result` exactly as the source does,
computing the runtime from `finished` in the first two branches and from the
current instant in the last. -/
def Dispatcher.getStatus (d : Dispatcher) (id : String) (now : Nat) :
    Except NotFound Status :=
  match d.runList id with
  | none => Except.error ⟨id⟩
  | some run =>
    if optTruthy run.error then
      Except.ok
        { suite := run.suite,
          status := if run.processKilled then "cancelled" else "error",
          runtime := (finishedTime run : Int) - (run.started : Int),
          error := run.error, result := none }
    else if optTruthy run.result then
      Except.ok
        { suite := run.suite, status := "completed",
          runtime := (finishedTime run : Int) - (run.started : Int),
          error := none, result := run.result }
    else
      Except.ok
        { suite := run.suite, status := "active",
          runtime := (now : Int) - (run.started : Int),
          error := none, result := none }

/-- `cancel(id)`: throw `NotFound(id)` for an unknown id, otherwise call
`run.process.kill()`.  The signal can only be delivered (setting the
`killed` flag) while the process may still be running, i.e. before its
completion callback has fired; on a finished run the handle is closed and
the call is a no-op. -/
def Dispatcher.cancel (d : Dispatcher) (id : String) :
    Except NotFound Unit × Dispatcher :=
  match d.runList id with
  | none => (Except.error ⟨id⟩, d)
  | some run =>
    let run1 := if run.finished.isSome then run else { run with processKilled := true }
    (Except.ok (), { d with runList := mapSet d.runList id run1 })

/-- One event of the system: a `start` call, a `cancel` call, or the firing
of one run's completion callback.  (`getStatus` never mutates state.)  The
callback fires only for a registered, not yet finished run: `execFile`
invokes it exactly once per process, always after `start` synchronously
registered the record, and every firing sets `finished`. -/
inductive Step (m : TestModule) : Dispatcher → Dispatcher → Prop where
  | start (d : Dispatcher) (suite : String) (now : Nat) :
      Step m d (d.start m suite now).2
  | cancel (d : Dispatcher) (id : String) :
      Step m d (d.cancel id).2
  | complete (d : Dispatcher) (id : String) (err : Option String)
      (stdout stderr : String) (now : Nat) (run : Run)
      (hrun : d.runList id = some run) (hfin : run.finished = none) :
      Step m d (d.onExit m id err stdout stderr now)

/-- Finitely many events in sequence. -/
inductive Steps (m : TestModule) : Dispatcher → Dispatcher → Prop where
  | refl (d : Dispatcher) : Steps m d d
  | tail (d d1 d2 : Dispatcher) : Steps m d d1 → Step m d1 d2 → Steps m d d2

/-- States reachable from a freshly constructed dispatcher. -/
def Reachable (m : TestModule) (d : Dispatcher) : Prop :=
  Steps m Dispatcher.init d

/-- The state invariant: the counter started at 1 and only grew; every
registered id is the decimal rendering of a counter value already consumed;
an unfinished record has no outcome yet. -/
def DInv (d : Dispatcher) : Prop :=
  1 ≤ d.nextId ∧
  ∀ id run, d.runList id = some run →
    (run.finished = none → run.result = none ∧ run.error = none) ∧
    ∃ k, 1 ≤ k ∧ k < d.nextId ∧ id = Nat.repr k

/-- A sequence of `start` calls (suite and call instant for each), folded over
the dispatcher state; collects the identifiers the successful calls return. -/
def runStarts (m : TestModule) (d : Dispatcher) :
    List (String × Nat) → Dispatcher × List String
  | [] => (d, [])
  | c :: rest =>
    match d.start m c.1 c.2 with
    | (Except.ok id, d1) =>
      ((runStarts m d1 rest).1, id :: (runStarts m d1 rest).2)
    | (Except.error _, d1) => runStarts m d1 rest

/-- A catalog knowing the suite `unit`, whose decoder returns a truthy
structured result. -/
def unitModule : TestModule :=
  { has := fun s => s == "unit",
    makeRunCommand := fun s => { command := "run", args := [s] },
    decodeResult := fun _ => Except.ok (JSVal.obj 0) }

/-- A catalog knowing the suite `unit`, whose decoder returns `null` — a
perfectly legal decoded value that happens to be falsy. -/
def falsyModule : TestModule :=
  { has := fun s => s == "unit",
    makeRunCommand := fun s => { command := "run", args := [s] },
    decodeResult := fun _ => Except.ok JSVal.null }

/-- State after `start("unit")` at instant 100 on a fresh dispatcher. -/
def sA : Dispatcher := (Dispatcher.init.start unitModule "unit" 100).2

/-- The active record registered by that call. -/
def runA : Run :=
  { processKilled := false, suite := "unit", started := 100,
    finished := none, result := none, error := none }

/-- State after run 1's process reported an execution error at instant 250. -/
def sErr : Dispatcher := sA.onExit unitModule "1" (some "boom") "" "" 250

/-- Run 1's record in `sErr`. -/
def runErr : Run :=
  { processKilled := false, suite := "unit", started := 100,
    finished := some 250, result := none, error := some (JSVal.errorObj "boom") }

/-- State after run 1's process exited cleanly at instant 250 with decodable
output. -/
def sB : Dispatcher := sA.onExit unitModule "1" none "out" "" 250

/-- Run 1's record in `sB`. -/
def runB : Run :=
  { processKilled := false, suite := "unit", started := 100,
    finished := some 250, result := some (JSVal.obj 0), error := none }

/-- Same start, against the catalog whose decoder yields `null`. -/
def fA : Dispatcher := (Dispatcher.init.start falsyModule "unit" 100).2

/-- State after run 1's process exited cleanly at instant 200 and its output
decoded to the falsy value `null`. -/
def fB : Dispatcher := fA.onExit falsyModule "1" none "out" "" 200

/-- Run 1's record in `fB`: finished and holding a result, but a falsy one. -/
def runFB : Run :=
  { processKilled := false, suite := "unit", started := 100,
    finished := some 200, result := some JSVal.null, error := none }

/-! ### Decimal rendering of the identifier counter

`generateId` renders the counter with `Nat.toString`, i.e. `Nat.repr`; the
distinctness of the issued identifiers rests on this rendering being
injective, proved here through `Nat.digits`. -/

theorem toDigitsCore_eq_digits :
    ∀ (fuel n : Nat) (acc : List Char), 1 ≤ n → n < fuel →
      Nat.toDigitsCore 10 fuel n acc
        = ((Nat.digits 10 n).reverse.map Nat.digitChar) ++ acc := by
  intro fuel
  induction fuel with
  | zero => intro n acc h1 h2; omega
  | succ f ih =>
    intro n acc h1 h2
    by_cases hd : n / 10 = 0
    · have h10 : n < 10 := by omega
      simp [Nat.toDigitsCore, hd, Nat.digits_of_lt 10 n (by omega) h10,
        Nat.mod_eq_of_lt h10]
    · have hpos : 1 ≤ n / 10 := by omega
      have hlt : n / 10 < f := by omega
      rw [Nat.digits_def' (by norm_num : (1:ℕ) < 10) (by omega : 0 < n)]
      simp only [Nat.toDigitsCore, hd, if_false]
      rw [ih (n / 10) (Nat.digitChar (n % 10) :: acc) hpos hlt]
      simp

theorem toDigits_eq_digits (n : Nat) (h : 1 ≤ n) :
    Nat.toDigits 10 n = (Nat.digits 10 n).reverse.map Nat.digitChar := by
  have h0 : Nat.toDigits 10 n = Nat.toDigitsCore 10 (n + 1) n [] := rfl
  rw [h0, toDigitsCore_eq_digits (n + 1) n [] h (by omega), List.append_nil]

theorem digitChar_injOn_aux :
    ∀ a : Fin 10, ∀ b : Fin 10,
      Nat.digitChar a.val = Nat.digitChar b.val → a = b := by decide

theorem digitChar_injOn (a b : Nat) (ha : a < 10) (hb : b < 10)
    (h : Nat.digitChar a = Nat.digitChar b) : a = b := by
  have h2 := digitChar_injOn_aux ⟨a, ha⟩ ⟨b, hb⟩ h
  simpa using congrArg Fin.val h2

theorem map_digitChar_inj :
    ∀ (l1 l2 : List Nat), (∀ x ∈ l1, x < 10) → (∀ x ∈ l2, x < 10) →
      l1.map Nat.digitChar = l2.map Nat.digitChar → l1 = l2 := by
  intro l1
  induction l1 with
  | nil =>
    intro l2 _ _ h
    cases l2 with
    | nil => rfl
    | cons b t => simp at h
  | cons a t ih =>
    intro l2 h1 h2 h
    cases l2 with
    | nil => simp at h
    | cons b t2 =>
      simp only [List.map_cons, List.cons.injEq] at h
      have hab : a = b :=
        digitChar_injOn a b (h1 a (by simp)) (h2 b (by simp)) h.1
      have ht : t = t2 :=
        ih t2 (fun x hx => h1 x (by simp [hx])) (fun x hx => h2 x (by simp [hx])) h.2
      rw [hab, ht]

theorem repr_injective (a b : Nat) (h : Nat.repr a = Nat.repr b) : a = b := by
  have h2 : Nat.toDigits 10 a = Nat.toDigits 10 b := congrArg String.data h
  have key : ∀ n : Nat, 1 ≤ n → Nat.toDigits 10 n ≠ ['0'] := by
    intro n hn hcontra
    rw [toDigits_eq_digits n hn] at hcontra
    have hrev : (Nat.digits 10 n).reverse = [0] := by
      rcases hr : (Nat.digits 10 n).reverse with _ | ⟨x, tl⟩
      · rw [hr] at hcontra; simp at hcontra
      · rw [hr] at hcontra
        simp only [List.map_cons, List.cons.injEq] at hcontra
        have hx10 : x < 10 :=
          Nat.digits_lt_base (by norm_num)
            (List.mem_reverse.mp (hr ▸ List.mem_cons_self x tl))
        have hx0 : x = 0 :=
          digitChar_injOn x 0 hx10 (by norm_num) hcontra.1
        have htl : tl = [] := by
          rcases tl with _ | ⟨y, tl2⟩
          · rfl
          · simp at hcontra
        rw [hx0, htl]
    have hdig : Nat.digits 10 n = [0] := by
      have := congrArg List.reverse hrev
      simpa using this
    have hofd := Nat.ofDigits_digits 10 n
    rw [hdig] at hofd
    simp [Nat.ofDigits] at hofd
    omega
  match a, b with
  | 0, 0 => rfl
  | 0, b + 1 =>
    exact absurd h2.symm (key (b + 1) (by omega))
  | a + 1, 0 =>
    exact absurd h2 (key (a + 1) (by omega))
  | a + 1, b + 1 =>
    rw [toDigits_eq_digits (a + 1) (by omega),
      toDigits_eq_digits (b + 1) (by omega)] at h2
    have hrev : (Nat.digits 10 (a + 1)).reverse = (Nat.digits 10 (b + 1)).reverse :=
      map_digitChar_inj _ _
        (fun x hx => Nat.digits_lt_base (by norm_num) (List.mem_reverse.mp hx))
        (fun x hx => Nat.digits_lt_base (by norm_num) (List.mem_reverse.mp hx)) h2
    have hdig : Nat.digits 10 (a + 1) = Nat.digits 10 (b + 1) := by
      have := congrArg List.reverse hrev
      simpa using this
    have hofd := congrArg (Nat.ofDigits 10) hdig
    rw [Nat.ofDigits_digits, Nat.ofDigits_digits] at hofd
    exact_mod_cast hofd

theorem repr_ne_of_lt (a b : Nat) (h : a < b) : Nat.repr a ≠ Nat.repr b :=
  fun he => absurd (repr_injective a b he) (by omega)

/-! ### Unfolding lemmas for the operations -/

theorem start_ok_eq (d : Dispatcher) (m : TestModule) (suite : String) (now : Nat)
    (hhas : m.has suite = true) :
    d.start m suite now =
      (Except.ok (Nat.repr d.nextId),
       { runList := mapSet d.runList (Nat.repr d.nextId)
           { processKilled := false, suite := suite, started := now,
             finished := none, result := none, error := none },
         nextId := d.nextId + 1 }) := by
  simp [Dispatcher.start, hhas, Dispatcher.generateId]

theorem start_err_eq (d : Dispatcher) (m : TestModule) (suite : String) (now : Nat)
    (hhas : m.has suite = false) :
    d.start m suite now = (Except.error ⟨suite⟩, d) := by
  simp [Dispatcher.start, hhas]

theorem cancel_none_eq (d : Dispatcher) (id : String) (hrun : d.runList id = none) :
    d.cancel id = (Except.error ⟨id⟩, d) := by
  simp [Dispatcher.cancel, hrun]

theorem cancel_some_eq (d : Dispatcher) (id : String) (run : Run)
    (hrun : d.runList id = some run) :
    d.cancel id =
      (Except.ok (),
       { d with runList := mapSet d.runList id (if run.finished.isSome then run else { run with processKilled := true }) }) := by
  simp [Dispatcher.cancel, hrun]

theorem getStatus_none_eq (d : Dispatcher) (id : String) (now : Nat)
    (hrun : d.runList id = none) :
    d.getStatus id now = Except.error ⟨id⟩ := by
  simp [Dispatcher.getStatus, hrun]

theorem getStatus_spec (d : Dispatcher) (id : String) (now : Nat) (run : Run)
    (hrun : d.runList id = some run) :
    d.getStatus id now = Except.ok
      { suite := run.suite,
        status :=
          if optTruthy run.error then
            (if run.processKilled then "cancelled" else "error")
          else if optTruthy run.result then "completed" else "active",
        runtime :=
          if optTruthy run.error || optTruthy run.result then
            (finishedTime run : Int) - (run.started : Int)
          else (now : Int) - (run.started : Int),
        error := if optTruthy run.error then run.error else none,
        result :=
          if optTruthy run.error then none
          else if optTruthy run.result then run.result else none } := by
  simp only [Dispatcher.getStatus, hrun]
  by_cases he : optTruthy run.error
  · simp [he]
  · by_cases hr : optTruthy run.result
    · simp [he, hr]
    · simp [he, hr]

theorem onExit_runList (m : TestModule) (d : Dispatcher) (id : String)
    (err : Option String) (stdout stderr : String) (now : Nat) (run : Run)
    (hrun : d.runList id = some run) :
    ∃ run2, d.onExit m id err stdout stderr now =
        { d with runList := mapSet d.runList id run2 } ∧
      run2.finished = some now ∧ run2.started = run.started ∧
      run2.suite = run.suite ∧ run2.processKilled = run.processKilled ∧
      ((∃ e, err = some e ∧
          run2.error = some (JSVal.errorObj e) ∧ run2.result = run.result) ∨
       (err = none ∧ stdout = "" ∧ stderr ≠ "" ∧
          run2.error = some (JSVal.errorObj stderr) ∧ run2.result = run.result) ∨
       (err = none ∧ ¬(stdout = "" ∧ stderr ≠ "") ∧
          ((∃ v, m.decodeResult stdout = Except.ok v ∧
              run2.result = some v ∧ run2.error = run.error) ∨
           (∃ e, m.decodeResult stdout = Except.error e ∧
              run2.error = some e ∧ run2.result = run.result)))) := by
  simp only [Dispatcher.onExit, hrun]
  cases err with
  | some e =>
    refine ⟨{ run with finished := some now, error := some (JSVal.errorObj e) },
      by simp, rfl, rfl, rfl, rfl, Or.inl ⟨e, rfl, rfl, rfl⟩⟩
  | none =>
    by_cases hcond : (stdout == "" && stderr != "") = true
    · have hcondp : stdout = "" ∧ stderr ≠ "" := by
        simpa [Bool.and_eq_true] using hcond
      refine ⟨{ run with finished := some now, error := some (JSVal.errorObj stderr) },
        by simp [hcond], rfl, rfl, rfl, rfl,
        Or.inr (Or.inl ⟨rfl, hcondp.1, hcondp.2, rfl, rfl⟩)⟩
    · have hcondp : ¬(stdout = "" ∧ stderr ≠ "") := by
        intro hc
        exact hcond (by simp [hc.1, hc.2])
      cases hdec : m.decodeResult stdout with
      | ok v =>
        refine ⟨{ run with finished := some now, result := some v },
          by simp [hcond, hdec], rfl, rfl, rfl, rfl,
          Or.inr (Or.inr ⟨rfl, hcondp, Or.inl ⟨v, rfl, rfl, rfl⟩⟩)⟩
      | error e2 =>
        refine ⟨{ run with finished := some now, error := some e2 },
          by simp [hcond, hdec], rfl, rfl, rfl, rfl,
          Or.inr (Or.inr ⟨rfl, hcondp, Or.inr ⟨e2, rfl, rfl, rfl⟩⟩)⟩

/-! ### The invariant holds in every reachable state -/

theorem dinv_init : DInv Dispatcher.init := by
  refine ⟨le_refl 1, ?_⟩
  intro id run hrun
  simp [Dispatcher.init] at hrun

theorem dinv_step (m : TestModule) (d d2 : Dispatcher) (hinv : DInv d)
    (hstep : Step m d d2) : DInv d2 := by
  obtain ⟨hn, hrec⟩ := hinv
  cases hstep with
  | start suite now =>
    by_cases hhas : m.has suite = true
    · simp only [start_ok_eq d m suite now hhas]
      refine ⟨Nat.le_succ_of_le hn, ?_⟩
      intro id run hrun
      simp only [mapSet] at hrun
      by_cases hid : id = Nat.repr d.nextId
      · rw [if_pos hid] at hrun
        have hrun2 := Option.some.inj hrun
        refine ⟨?_, d.nextId, hn, Nat.lt_succ_self d.nextId, hid⟩
        intro hfin
        rw [← hrun2]
        exact ⟨rfl, rfl⟩
      · rw [if_neg hid] at hrun
        obtain ⟨hc, k, hk1, hk2, hk3⟩ := hrec id run hrun
        exact ⟨hc, k, hk1, Nat.lt_succ_of_lt hk2, hk3⟩
    · simp only [start_err_eq d m suite now (eq_false_of_ne_true hhas)]
      exact ⟨hn, hrec⟩
  | cancel id2 =>
    cases hlook : d.runList id2 with
    | none =>
      simp only [cancel_none_eq d id2 hlook]
      exact ⟨hn, hrec⟩
    | some run0 =>
      simp only [cancel_some_eq d id2 run0 hlook]
      refine ⟨hn, ?_⟩
      intro id run hrun
      simp only [mapSet] at hrun
      by_cases hid : id = id2
      · rw [if_pos hid] at hrun
        have hrun2 := Option.some.inj hrun
        obtain ⟨hc0, k, hk1, hk2, hk3⟩ := hrec id2 run0 hlook
        refine ⟨?_, k, hk1, hk2, hid ▸ hk3⟩
        intro hfin
        rw [← hrun2] at hfin ⊢
        by_cases hf : run0.finished.isSome = true
        · simp only [if_pos hf] at hfin ⊢
          exact hc0 hfin
        · simp only [if_neg hf] at hfin ⊢
          exact hc0 hfin
      · rw [if_neg hid] at hrun
        exact hrec id run hrun
  | complete id2 err stdout stderr now run0 hrun0 hfin0 =>
    obtain ⟨run2, heq, hfin2, hst2, hsu2, hpk2, houtc⟩ :=
      onExit_runList m d id2 err stdout stderr now run0 hrun0
    rw [heq]
    refine ⟨hn, ?_⟩
    intro id run hrun
    simp only [mapSet] at hrun
    by_cases hid : id = id2
    · rw [if_pos hid] at hrun
      have hrun2 := Option.some.inj hrun
      obtain ⟨hc0, k, hk1, hk2, hk3⟩ := hrec id2 run0 hrun0
      refine ⟨?_, k, hk1, hk2, hid ▸ hk3⟩
      intro hfin
      rw [← hrun2] at hfin
      rw [hfin2] at hfin
      exact absurd hfin (by simp)
    · rw [if_neg hid] at hrun
      exact hrec id run hrun

theorem dinv_steps (m : TestModule) (d d2 : Dispatcher) (hinv : DInv d)
    (hsteps : Steps m d d2) : DInv d2 := by
  induction hsteps with
  | refl => exact hinv
  | tail db dc hs hstep ih => exact dinv_step m db dc ih hstep

theorem reachable_dinv (m : TestModule) (d : Dispatcher) (h : Reachable m d) : DInv d :=
  dinv_steps m Dispatcher.init d dinv_init h

/-! ### A finished record is never touched again -/

theorem step_preserves_run (m : TestModule) (d d2 : Dispatcher) (hinv : DInv d)
    (hstep : Step m d d2) (id : String) (run : Run)
    (hrun : d.runList id = some run) (hfin : run.finished.isSome = true) :
    d2.runList id = some run := by
  cases hstep with
  | start suite now =>
    by_cases hhas : m.has suite = true
    · simp only [start_ok_eq d m suite now hhas]
      simp only [mapSet]
      obtain ⟨-, k, hk1, hk2, hk3⟩ := hinv.2 id run hrun
      rw [if_neg (hk3 ▸ repr_ne_of_lt k d.nextId hk2)]
      exact hrun
    · simp only [start_err_eq d m suite now (eq_false_of_ne_true hhas)]
      exact hrun
  | cancel id2 =>
    cases hlook : d.runList id2 with
    | none =>
      simp only [cancel_none_eq d id2 hlook]
      exact hrun
    | some run0 =>
      simp only [cancel_some_eq d id2 run0 hlook]
      simp only [mapSet]
      by_cases hid : id = id2
      · subst hid
        rw [hrun] at hlook
        have h0 := Option.some.inj hlook
        rw [if_pos rfl, ← h0, if_pos (h0 ▸ hfin)]
      · rw [if_neg hid]
        exact hrun
  | complete id2 err stdout stderr now run0 hrun0 hfin0 =>
    obtain ⟨run2, heq, -⟩ := onExit_runList m d id2 err stdout stderr now run0 hrun0
    rw [heq]
    simp only [mapSet]
    by_cases hid : id = id2
    · subst hid
      rw [hrun] at hrun0
      have h0 := Option.some.inj hrun0
      rw [← h0] at hfin0
      rw [hfin0] at hfin
      exact absurd hfin (by simp)
    · rw [if_neg hid]
      exact hrun

theorem steps_preserves_run (m : TestModule) (d d2 : Dispatcher) (hinv : DInv d)
    (hsteps : Steps m d d2) (id : String) (run : Run)
    (hrun : d.runList id = some run) (hfin : run.finished.isSome = true) :
    d2.runList id = some run := by
  induction hsteps with
  | refl => exact hrun
  | tail db dc hs hstep ih =>
    exact step_preserves_run m db dc (dinv_steps m d db hinv hs) hstep id run ih hfin

/-! ### Concrete scenario facts -/

theorem sA_run : sA.runList "1" = some runA := rfl

theorem sErr_run : sErr.runList "1" = some runErr := rfl

theorem sB_run : sB.runList "1" = some runB := rfl

theorem fB_run : fB.runList "1" = some runFB := rfl

theorem reach_sA : Reachable unitModule sA :=
  Steps.tail Dispatcher.init Dispatcher.init sA (Steps.refl Dispatcher.init)
    (Step.start Dispatcher.init "unit" 100)

theorem reach_sErr : Reachable unitModule sErr :=
  Steps.tail Dispatcher.init sA sErr reach_sA
    (Step.complete sA "1" (some "boom") "" "" 250 runA rfl rfl)

theorem reach_sB : Reachable unitModule sB :=
  Steps.tail Dispatcher.init sA sB reach_sA
    (Step.complete sA "1" none "out" "" 250 runA rfl rfl)

theorem reach_fA : Reachable falsyModule fA :=
  Steps.tail Dispatcher.init Dispatcher.init fA (Steps.refl Dispatcher.init)
    (Step.start Dispatcher.init "unit" 100)

theorem reach_fB : Reachable falsyModule fB :=
  Steps.tail Dispatcher.init fA fB reach_fA
    (Step.complete fA "1" none "out" "" 200 runA rfl rfl)

/-! ### The identifiers returned by a sequence of start calls -/

theorem runStarts_ids (m : TestModule) :
    ∀ (calls : List (String × Nat)) (d : Dispatcher),
      ∃ k, (runStarts m d calls).2
          = (List.range k).map (fun i => Nat.repr (d.nextId + i)) ∧
        (runStarts m d calls).1.nextId = d.nextId + k := by
  intro calls
  induction calls with
  | nil => intro d; exact ⟨0, by simp [runStarts], by simp [runStarts]⟩
  | cons c rest ih =>
    intro d
    by_cases hhas : m.has c.1 = true
    · have hunfold : runStarts m d (c :: rest) =
          ((runStarts m ((d.start m c.1 c.2).2) rest).1,
           Nat.repr d.nextId :: (runStarts m ((d.start m c.1 c.2).2) rest).2) := by
        rw [runStarts, start_ok_eq d m c.1 c.2 hhas]
      set d1 := (d.start m c.1 c.2).2 with hd1
      have hnext1 : d1.nextId = d.nextId + 1 := by
        rw [hd1, start_ok_eq d m c.1 c.2 hhas]
      obtain ⟨k, hids, hlen⟩ := ih d1
      refine ⟨k + 1, ?_, ?_⟩
      · rw [hunfold]
        rw [hids, hnext1]
        simp only [List.range_succ_eq_map, List.map_cons, List.map_map, Nat.add_zero,
          List.cons.injEq]
        refine ⟨trivial, ?_⟩
        apply List.map_congr_left
        intro a ha
        simp only [Function.comp_apply]
        exact congrArg Nat.repr (by omega)
      · rw [hunfold]
        dsimp only
        rw [hlen, hnext1]
        omega
    · have hunfold : runStarts m d (c :: rest) = runStarts m d rest := by
        rw [runStarts, start_err_eq d m c.1 c.2 (eq_false_of_ne_true hhas)]
      rw [hunfold]
      exact ih d

/-! ### The claims -/

/-- C3: on every process-completion notification for a registered run, the
outcome is chosen with this precedence: (1) a reported launch/execution
error becomes the error outcome; (2) else empty standard output with
non-empty diagnostic output becomes an error wrapping the diagnostic text;
(3) else standard output is decoded — failure yields an error outcome,
success a result outcome; and the finished timestamp is set in this same
update in every branch. -/
theorem c3_completion_precedence (m : TestModule) (d : Dispatcher) (id : String)
    (err : Option String) (stdout stderr : String) (now : Nat) (run : Run)
    (hrun : d.runList id = some run) :
    ∃ run2, d.onExit m id err stdout stderr now =
        { d with runList := mapSet d.runList id run2 } ∧
      run2.finished = some now ∧ run2.started = run.started ∧
      run2.suite = run.suite ∧ run2.processKilled = run.processKilled ∧
      ((∃ e, err = some e ∧
          run2.error = some (JSVal.errorObj e) ∧ run2.result = run.result) ∨
       (err = none ∧ stdout = "" ∧ stderr ≠ "" ∧
          run2.error = some (JSVal.errorObj stderr) ∧ run2.result = run.result) ∨
       (err = none ∧ ¬(stdout = "" ∧ stderr ≠ "") ∧
          ((∃ v, m.decodeResult stdout = Except.ok v ∧
              run2.result = some v ∧ run2.error = run.error) ∨
           (∃ e, m.decodeResult stdout = Except.error e ∧
              run2.error = some e ∧ run2.result = run.result)))) :=
  onExit_runList m d id err stdout stderr now run hrun

/-- Witness for C3: the error-precedence branch taken concretely in the
scenario state `sA`. -/
theorem c3_witness :
    sA.runList "1" = some runA ∧
    ∃ run2, sA.onExit unitModule "1" (some "boom") "" "" 250 =
        { sA with runList := mapSet sA.runList "1" run2 } ∧
      run2.finished = some 250 ∧ run2.started = runA.started ∧
      run2.suite = runA.suite ∧ run2.processKilled = runA.processKilled ∧
      ((∃ e, some "boom" = some e ∧
          run2.error = some (JSVal.errorObj e) ∧ run2.result = runA.result) ∨
       (some "boom" = none ∧ "" = "" ∧ "" ≠ "" ∧
          run2.error = some (JSVal.errorObj "") ∧ run2.result = runA.result) ∨
       (some "boom" = none ∧ ¬("" = "" ∧ "" ≠ "") ∧
          ((∃ v, unitModule.decodeResult "" = Except.ok v ∧
              run2.result = some v ∧ run2.error = runA.error) ∨
           (∃ e, unitModule.decodeResult "" = Except.error e ∧
              run2.error = some e ∧ run2.result = runA.result)))) :=
  ⟨rfl, c3_completion_precedence unitModule sA "1" (some "boom") "" "" 250 runA rfl⟩

/-- C5: over any sequence of `start` calls on one dispatcher instance, the
identifiers returned by the accepted calls are the decimal renderings of the
consecutive counter values 1, 2, … in issuance order — hence pairwise
distinct and strictly increasing — and the counter is incremented exactly
once per issued identifier, independently of what later becomes of the run.
(A `start` rejected with `NotFound` issues no identifier and leaves the
counter untouched — see C6.) -/
theorem c5_identifiers_distinct_increasing (m : TestModule) (calls : List (String × Nat)) :
    (∃ k, (runStarts m Dispatcher.init calls).2
          = (List.range k).map (fun i => Nat.repr (1 + i)) ∧
        (runStarts m Dispatcher.init calls).1.nextId = 1 + k) ∧
    (runStarts m Dispatcher.init calls).2.Nodup := by
  obtain ⟨k, hids, hnext⟩ := runStarts_ids m calls Dispatcher.init
  refine ⟨⟨k, hids, hnext⟩, ?_⟩
  rw [hids]
  refine List.Nodup.map ?_ (List.nodup_range k)
  intro a b hab
  have := repr_injective (1 + a) (1 + b) hab
  omega

/-- C6: starting an unknown suite throws `NotFound(suite)` and has no side
effect: the unchanged dispatcher state comes back, so no record is created,
no process is spawned and the identifier counter keeps its value. -/
theorem c6_unknown_suite_no_effect (m : TestModule) (d : Dispatcher) (suite : String)
    (now : Nat) (hhas : m.has suite = false) :
    d.start m suite now = (Except.error ⟨suite⟩, d) :=
  start_err_eq d m suite now hhas

/-- Witness for C6: `start("missing")` against the concrete catalog. -/
theorem c6_witness :
    unitModule.has "missing" = false ∧
    Dispatcher.init.start unitModule "missing" 7
      = (Except.error ⟨"missing"⟩, Dispatcher.init) :=
  ⟨rfl, c6_unknown_suite_no_effect unitModule Dispatcher.init "missing" 7 rfl⟩

/-- C7: `getStatus` and `cancel` on an unregistered id throw `NotFound(id)`;
moreover `NotFound` is the only synchronous failure of any operation — every
error that `start`/`getStatus`/`cancel` can return names the failed lookup,
and an erroring call leaves the state unchanged.  (Per-run failures are only
data in later `getStatus` responses, never synchronous exceptions.) -/
theorem c7_notfound_only_sync_error (m : TestModule) (d : Dispatcher) (id : String)
    (hrun : d.runList id = none) :
    (∀ now, d.getStatus id now = Except.error ⟨id⟩) ∧
    d.cancel id = (Except.error ⟨id⟩, d) ∧
    (∀ suite now e d2, d.start m suite now = (Except.error e, d2) →
      e = ⟨suite⟩ ∧ d2 = d) ∧
    (∀ id2 now e, d.getStatus id2 now = Except.error e → e = ⟨id2⟩) ∧
    (∀ id2 e d2, d.cancel id2 = (Except.error e, d2) → e = ⟨id2⟩ ∧ d2 = d) := by
  refine ⟨fun now => getStatus_none_eq d id now hrun, cancel_none_eq d id hrun, ?_, ?_, ?_⟩
  · intro suite now e d2 h
    by_cases hhas : m.has suite = true
    · rw [start_ok_eq d m suite now hhas] at h
      injection h with h1 h2
      exact Except.noConfusion h1
    · rw [start_err_eq d m suite now (eq_false_of_ne_true hhas)] at h
      injection h with h1 h2
      injection h1 with h3
      exact ⟨h3.symm, h2.symm⟩
  · intro id2 now e h
    cases hlook : d.runList id2 with
    | none =>
      rw [getStatus_none_eq d id2 now hlook] at h
      injection h with h1
      exact h1.symm
    | some run =>
      rw [getStatus_spec d id2 now run hlook] at h
      exact Except.noConfusion h
  · intro id2 e d2 h
    cases hlook : d.runList id2 with
    | none =>
      rw [cancel_none_eq d id2 hlook] at h
      injection h with h1 h2
      injection h1 with h3
      exact ⟨h3.symm, h2.symm⟩
    | some run =>
      rw [cancel_some_eq d id2 run hlook] at h
      injection h with h1 h2
      exact Except.noConfusion h1

/-- Witness for C7: id `"9"` was never issued in the scenario state `sA`. -/
theorem c7_witness :
    sA.runList "9" = none ∧
    (∀ now, sA.getStatus "9" now = Except.error ⟨"9"⟩) ∧
    sA.cancel "9" = (Except.error ⟨"9"⟩, sA) ∧
    (∀ suite now e d2, sA.start unitModule suite now = (Except.error e, d2) →
      e = ⟨suite⟩ ∧ d2 = sA) ∧
    (∀ id2 now e, sA.getStatus id2 now = Except.error e → e = ⟨id2⟩) ∧
    (∀ id2 e d2, sA.cancel id2 = (Except.error e, d2) → e = ⟨id2⟩ ∧ d2 = sA) :=
  ⟨rfl, c7_notfound_only_sync_error unitModule sA "9" rfl⟩

/-- C8: when `start` accepts a suite and returns an id, a `getStatus` on
that id before the completion notification fires reports status `active`
with a non-negative runtime (the poll happens no earlier than the start). -/
theorem c8_active_right_after_start (m : TestModule) (d d2 : Dispatcher)
    (suite id : String) (now later : Nat)
    (hstart : d.start m suite now = (Except.ok id, d2)) (hle : now ≤ later) :
    d2.getStatus id later = Except.ok
      { suite := suite, status := "active",
        runtime := (later : Int) - (now : Int), error := none, result := none } ∧
    0 ≤ (later : Int) - (now : Int) := by
  by_cases hhas : m.has suite = true
  · rw [start_ok_eq d m suite now hhas] at hstart
    injection hstart with h1 h2
    injection h1 with h1
    subst h2
    have hrunNew : (mapSet d.runList (Nat.repr d.nextId)
        { processKilled := false, suite := suite, started := now,
          finished := none, result := none, error := none }) id
        = some { processKilled := false, suite := suite, started := now,
                 finished := none, result := none, error := none } := by
      simp only [mapSet]
      rw [if_pos h1.symm]
    constructor
    · rw [getStatus_spec _ id later _ hrunNew]
      simp [optTruthy]
    · omega
  · rw [start_err_eq d m suite now (eq_false_of_ne_true hhas)] at hstart
    injection hstart with h1 h2
    exact Except.noConfusion h1

/-- Witness for C8: polling at instant 130 right after the start at 100. -/
theorem c8_witness :
    sA.getStatus "1" 130 = Except.ok
      { suite := "unit", status := "active", runtime := 30,
        error := none, result := none } ∧
    0 ≤ (130 : Int) - (100 : Int) :=
  c8_active_right_after_start unitModule Dispatcher.init sA "unit" "1" 100 130 rfl
    (by omega)

/-- C1: once a `getStatus` call has reported a terminal status (completed,
error or cancelled) for a run, `cancel` on that run is still accepted, and
after any sequence of further operations every later `getStatus` returns the
identical response — same status string, same frozen runtime (and the same
error/result payload), at whatever instant the poll happens. -/
theorem c1_terminal_status_frozen (m : TestModule) (d : Dispatcher)
    (hreach : Reachable m d) (id : String) (now : Nat) (st : Status)
    (hstat : d.getStatus id now = Except.ok st)
    (hterm : st.status = "completed" ∨ st.status = "error" ∨ st.status = "cancelled") :
    (∃ u, d.cancel id = (Except.ok (), u)) ∧
    ∀ d2, Steps m d d2 → ∀ later, d2.getStatus id later = Except.ok st := by
  have hinv := reachable_dinv m d hreach
  cases hlook : d.runList id with
  | none =>
    rw [getStatus_none_eq d id now hlook] at hstat
    exact Except.noConfusion hstat
  | some run =>
    rw [getStatus_spec d id now run hlook] at hstat
    have hst := Except.ok.inj hstat
    have hterm2 : (optTruthy run.error || optTruthy run.result) = true := by
      by_cases he : optTruthy run.error = true
      · simp [he]
      · by_cases hr : optTruthy run.result = true
        · simp [hr]
        · exfalso
          have hstatus : st.status = "active" := by
            rw [← hst]
            simp [he, hr]
          rcases hterm with h | h | h <;> rw [hstatus] at h <;> exact absurd h (by decide)
    have hfin : run.finished.isSome = true := by
      cases hf : run.finished with
      | some t => rfl
      | none =>
        obtain ⟨hres, herr⟩ := (hinv.2 id run hlook).1 hf
        rw [hres, herr] at hterm2
        simp [optTruthy] at hterm2
    constructor
    · rw [cancel_some_eq d id run hlook]
      exact ⟨_, rfl⟩
    · intro d2 hsteps later
      have hrun2 := steps_preserves_run m d d2 hinv hsteps id run hlook hfin
      rw [getStatus_spec d2 id later run hrun2, ← hst]
      simp [hterm2]

/-- Witness for C1: run 1 of `sErr` has reported status `error`; cancelling
it is accepted and every later poll repeats the same frozen response. -/
theorem c1_witness :
    sErr.getStatus "1" 300 = Except.ok
      { suite := "unit", status := "error", runtime := 150,
        error := some (JSVal.errorObj "boom"), result := none } ∧
    (∃ u, sErr.cancel "1" = (Except.ok (), u)) ∧
    ∀ d2, Steps unitModule sErr d2 → ∀ later,
      d2.getStatus "1" later = Except.ok
        { suite := "unit", status := "error", runtime := 150,
          error := some (JSVal.errorObj "boom"), result := none } :=
  ⟨rfl, c1_terminal_status_frozen unitModule sErr reach_sErr "1" 300
    { suite := "unit", status := "error", runtime := 150,
      error := some (JSVal.errorObj "boom"), result := none }
    rfl (Or.inr (Or.inl rfl))⟩

/-- C2 is false as stated, because of its runtime clause: in the reachable
state `fB` run 1 has `started = 100` and `finished = some 200`, yet
`getStatus` at instant 500 computes runtime 400 — measured to the current
instant although `finished` is set — because the stored decoded result is
the falsy value `null`, so the read falls through to the `active` branch. -/
theorem c2_counterexample :
    Reachable falsyModule fB ∧
    fB.runList "1" = some runFB ∧
    runFB.started = 100 ∧ runFB.finished = some 200 ∧
    fB.getStatus "1" 500 = Except.ok
      { suite := "unit", status := "active", runtime := 400,
        error := none, result := none } ∧
    (400 : Int) ≠ (200 : Int) - (100 : Int) :=
  ⟨reach_fB, rfl, rfl, rfl, rfl, by decide⟩

/-- C2 (amended): for every registered run, `getStatus` derives the status
field exactly as claimed — `cancelled`/`error` according to the killed flag
when the record's `error` field is (truthily) set, `completed` when `result`
is set, `active` when neither is — but the runtime equals the elapsed time
between `started` and `finished` exactly when a terminal status is being
reported (`error` or `result` truthy), and the elapsed time between
`started` and the current instant otherwise; `finished` being set does not
by itself select the frozen runtime (see the counterexample and C9). -/
theorem c2_amended_status_runtime (d : Dispatcher) (id : String) (now : Nat)
    (run : Run) (hrun : d.runList id = some run) :
    d.getStatus id now = Except.ok
      { suite := run.suite,
        status :=
          if optTruthy run.error then
            (if run.processKilled then "cancelled" else "error")
          else if optTruthy run.result then "completed" else "active",
        runtime :=
          if optTruthy run.error || optTruthy run.result then
            (finishedTime run : Int) - (run.started : Int)
          else (now : Int) - (run.started : Int),
        error := if optTruthy run.error then run.error else none,
        result :=
          if optTruthy run.error then none
          else if optTruthy run.result then run.result else none } :=
  getStatus_spec d id now run hrun

/-- Witness for C2 (amended): the completed run of `sB` is reported with the
frozen runtime 150 = 250 − 100 at poll instant 400. -/
theorem c2_witness :
    sB.runList "1" = some runB ∧
    sB.getStatus "1" 400 = Except.ok
      { suite := "unit", status := "completed", runtime := 150,
        error := none, result := some (JSVal.obj 0) } :=
  ⟨rfl, c2_amended_status_runtime sB "1" 400 runB rfl⟩

/-- C4: in every reachable state, a registered record that is not finished
has neither result nor error; and once its `finished` timestamp is set, no
event whatsoever alters the record again — `finished` keeps its value and
the outcome is never mutated (so `finished` goes from unset to set at most
once, and the completion event's precondition makes it fire exactly once
per run). -/
theorem c4_finalized_exactly_once (m : TestModule) (d : Dispatcher)
    (hreach : Reachable m d) (id : String) (run : Run)
    (hrun : d.runList id = some run) :
    (run.finished = none → run.result = none ∧ run.error = none) ∧
    (∀ t, run.finished = some t → ∀ d2, Step m d d2 → d2.runList id = some run) := by
  have hinv := reachable_dinv m d hreach
  refine ⟨(hinv.2 id run hrun).1, ?_⟩
  intro t ht d2 hstep
  exact step_preserves_run m d d2 hinv hstep id run hrun (by rw [ht]; rfl)

/-- Witness for C4: the finished record of `sErr` survives every further
event unchanged. -/
theorem c4_witness :
    sErr.runList "1" = some runErr ∧
    (runErr.finished = none → runErr.result = none ∧ runErr.error = none) ∧
    (∀ t, runErr.finished = some t →
      ∀ d2, Step unitModule sErr d2 → d2.runList "1" = some runErr) :=
  ⟨rfl, c4_finalized_exactly_once unitModule sErr reach_sErr "1" runErr rfl⟩

/-- C9: a decoder may legally return a falsy value — here `null` — and then
the completion callback does set `finished` and store the result, yet after
any sequence of further operations `getStatus` still reports status `active`
with a runtime computed from the current clock: the run never presents a
terminal status at the public interface. -/
theorem c9_falsy_result_stays_active (d2 : Dispatcher)
    (hsteps : Steps falsyModule fB d2) (later : Nat) :
    fB.runList "1" = some runFB ∧
    runFB.finished = some 200 ∧ runFB.result = some JSVal.null ∧
    JSVal.null.truthy = false ∧
    d2.getStatus "1" later = Except.ok
      { suite := "unit", status := "active",
        runtime := (later : Int) - (100 : Int), error := none, result := none } := by
  refine ⟨rfl, rfl, rfl, rfl, ?_⟩
  have hinv := reachable_dinv falsyModule fB reach_fB
  have hrun2 := steps_preserves_run falsyModule fB d2 hinv hsteps "1" runFB rfl rfl
  rw [getStatus_spec d2 "1" later runFB hrun2]
  simp [optTruthy, JSVal.truthy, runFB]

/-- Witness for C9: polling `fB` itself at instant 500. -/
theorem c9_witness :
    fB.runList "1" = some runFB ∧
    runFB.finished = some 200 ∧ runFB.result = some JSVal.null ∧
    JSVal.null.truthy = false ∧
    fB.getStatus "1" 500 = Except.ok
      { suite := "unit", status := "active", runtime := 400,
        error := none, result := none } :=
  c9_falsy_result_stays_active fB (Steps.refl fB) 500

/-- C10: in every reachable state, whenever `getStatus` would observe a
truthy `error` or `result` on a registered record, the `finished` timestamp
is present — the callback assigns `finished` before either outcome field —
so the non-null assertions `run.finished!` in the error and completed
branches of `getStatus` never read an absent timestamp. -/
theorem c10_outcome_implies_finished (m : TestModule) (d : Dispatcher)
    (hreach : Reachable m d) (id : String) (run : Run)
    (hrun : d.runList id = some run)
    (houtcome : optTruthy run.error = true ∨ optTruthy run.result = true) :
    run.finished.isSome = true := by
  have hinv := reachable_dinv m d hreach
  cases hf : run.finished with
  | some t => rfl
  | none =>
    obtain ⟨hres, herr⟩ := (hinv.2 id run hrun).1 hf
    rw [hres, herr] at houtcome
    simp [optTruthy] at houtcome

/-- Witness for C10: the error outcome of `sErr` comes with its finished
timestamp. -/
theorem c10_witness :
    sErr.runList "1" = some runErr ∧
    optTruthy runErr.error = true ∧
    runErr.finished.isSome = true :=
  ⟨rfl, rfl,
    c10_outcome_implies_finished unitModule sErr reach_sErr "1" runErr rfl (Or.inl rfl)⟩
